import Mathlib

/-!
Verification of the HR-extraction core of the job-portal backend.

The TypeScript sources are shallowly embedded: JS strings are modelled as
lists of UTF-16-ish characters (List Char), JS numbers that hold exact
decimal values as rationals (Rat) or naturals (Nat), exceptions as Except,
and the MongoDB collections as in-memory lists in insertion order.  Every
definition mirrors one function of the repository; the file then proves or
refutes the frozen claims about them.
-/

/-- JS string model: a list of characters. -/
abbrev JStr := List Char

/-- Characters matched by the JS whitespace class as used by trim
(space, tab, newline, carriage return, form feed, vertical tab). -/
def isJsWS (c : Char) : Bool :=
  c == ' ' || c == '\t' || c == '\n' || c == '\r' || c == '\x0c' || c == '\x0b'

/-- Model of String.prototype.trim: drop leading and trailing whitespace. -/
def trimChars (s : JStr) : JStr :=
  ((s.dropWhile isJsWS).reverse.dropWhile isJsWS).reverse

/-- Model of text.split of a newline, as in GrokService.splitTextIntoChunks:
the empty string splits to one empty line, and separators are not kept. -/
def splitLines : JStr → List JStr
  | [] => [[]]
  | c :: cs =>
    match splitLines cs with
    | [] => [[c]]
    | l :: ls => if c == '\n' then [] :: l :: ls else (c :: l) :: ls

/-- Join lines back with one newline between consecutive lines
(the inverse of splitLines; used to state the chunk round-trip claims). -/
def joinLines : List JStr → JStr
  | [] => []
  | [l] => l
  | l :: ls => l ++ '\n' :: joinLines ls

/-- Loop body of GrokService.splitTextIntoChunks: walk the lines, and when
appending the next line would push the buffer past maxChunkSize while the
buffer is non-empty, emit the trimmed buffer and restart it from that line;
otherwise append the line with a newline separator when the buffer is
non-empty.  At the end the final buffer is emitted when its trim is
non-empty. -/
def chunkGo (maxChunkSize : Nat) : List JStr → JStr → List JStr → List JStr
  | [], currentChunk, chunks =>
    if 0 < (trimChars currentChunk).length then chunks ++ [trimChars currentChunk] else chunks
  | line :: rest, currentChunk, chunks =>
    if maxChunkSize < currentChunk.length + line.length + 1 ∧ 0 < currentChunk.length then
      chunkGo maxChunkSize rest line (chunks ++ [trimChars currentChunk])
    else
      chunkGo maxChunkSize rest
        (currentChunk ++ (if 0 < currentChunk.length then ['\n'] else []) ++ line) chunks

/-- GrokService.splitTextIntoChunks. -/
def splitTextIntoChunks (text : JStr) (maxChunkSize : Nat) : List JStr :=
  chunkGo maxChunkSize (splitLines text) [] []

/-- A line is clean when it is non-empty and neither starts nor ends with
whitespace; on such lines the trim inside the chunker is the identity. -/
def cleanLine (l : JStr) : Bool :=
  !l.isEmpty && !(isJsWS l.headI) && !(isJsWS l.reverse.headI)

lemma splitLines_ne_nil (s : JStr) : splitLines s ≠ [] := by
  cases s with
  | nil => simp [splitLines]
  | cons c cs =>
    simp only [splitLines]
    rcases h : splitLines cs with _ | ⟨l, ls⟩
    · simp
    · by_cases hc : c = '\n' <;> simp [hc]

lemma joinLines_cons (l : JStr) (ls : List JStr) (h : ls ≠ []) :
    joinLines (l :: ls) = l ++ '\n' :: joinLines ls := by
  cases ls with
  | nil => exact absurd rfl h
  | cons a as => rfl

lemma joinLines_splitLines (s : JStr) : joinLines (splitLines s) = s := by
  induction s with
  | nil => rfl
  | cons c cs ih =>
    simp only [splitLines]
    rcases h : splitLines cs with _ | ⟨l, ls⟩
    · exact absurd h (splitLines_ne_nil cs)
    · rw [h] at ih
      by_cases hc : c = '\n'
      · subst hc
        simp only [beq_self_eq_true, if_true]
        rw [joinLines_cons _ _ (by simp)]
        simpa using ih
      · simp only [beq_iff_eq, hc, if_false]
        cases ls with
        | nil => simpa [joinLines] using congrArg (c :: ·) ih
        | cons b bs =>
          rw [joinLines_cons _ _ (by simp)] at ih ⊢
          simpa using congrArg (c :: ·) ih

lemma mem_splitLines_no_newline (s : JStr) : ∀ l ∈ splitLines s, '\n' ∉ l := by
  induction s with
  | nil => simp [splitLines]
  | cons c cs ih =>
    simp only [splitLines]
    rcases h : splitLines cs with _ | ⟨l, ls⟩
    · exact absurd h (splitLines_ne_nil cs)
    · rw [h] at ih
      by_cases hc : c = '\n'
      · subst hc
        simp only [beq_self_eq_true, if_true]
        intro m hm
        rcases List.mem_cons.mp hm with rfl | hm
        · simp
        · exact ih m hm
      · simp only [beq_iff_eq, hc, if_false]
        intro m hm
        rcases List.mem_cons.mp hm with rfl | hm
        · intro hn
          rcases List.mem_cons.mp hn with h1 | h1
          · exact hc h1.symm
          · exact ih l (List.mem_cons_self l ls) h1
        · exact ih m (List.mem_cons_of_mem _ hm)

lemma trimChars_length_le (s : JStr) : (trimChars s).length ≤ s.length := by
  unfold trimChars
  calc ((s.dropWhile isJsWS).reverse.dropWhile isJsWS).reverse.length
      = ((s.dropWhile isJsWS).reverse.dropWhile isJsWS).length := List.length_reverse _
    _ ≤ (s.dropWhile isJsWS).reverse.length := (List.dropWhile_sublist _).length_le
    _ = (s.dropWhile isJsWS).length := List.length_reverse _
    _ ≤ s.length := (List.dropWhile_sublist _).length_le

lemma chunkGo_acc (N : Nat) :
    ∀ (ls : List JStr) (cur : JStr) (acc : List JStr),
      chunkGo N ls cur acc = acc ++ chunkGo N ls cur [] := by
  intro ls
  induction ls with
  | nil =>
    intro cur acc
    simp only [chunkGo]
    split <;> simp
  | cons l rest ih =>
    intro cur acc
    simp only [chunkGo]
    split
    · rw [ih l (acc ++ [trimChars cur]), ih l ([] ++ [trimChars cur])]
      simp
    · rw [ih _ acc]

lemma trim_emit_bound {N : Nat} {cur : JStr} {P : JStr → Prop}
    (h : cur.length ≤ N ∨ P cur) :
    (trimChars cur).length ≤ N ∨ ∃ l, P l ∧ N < l.length ∧ trimChars cur = trimChars l := by
  rcases h with h | h
  · exact Or.inl (le_trans (trimChars_length_le cur) h)
  · by_cases hl : (trimChars cur).length ≤ N
    · exact Or.inl hl
    · exact Or.inr ⟨cur, h, lt_of_lt_of_le (not_le.mp hl) (trimChars_length_le cur), rfl⟩

lemma chunkGo_mem_bound (N : Nat) (P : JStr → Prop) :
    ∀ (ls : List JStr) (cur : JStr) (acc : List JStr),
      (∀ l ∈ ls, P l) → (cur.length ≤ N ∨ P cur) →
      ∀ c ∈ chunkGo N ls cur acc,
        c ∈ acc ∨ c.length ≤ N ∨ ∃ l, P l ∧ N < l.length ∧ c = trimChars l := by
  intro ls
  induction ls with
  | nil =>
    intro cur acc _ hcur c hc
    simp only [chunkGo] at hc
    split at hc
    · rcases List.mem_append.mp hc with hc | hc
      · exact Or.inl hc
      · have hceq : c = trimChars cur := by simpa using hc
        subst hceq
        rcases trim_emit_bound hcur with h | ⟨l, hPl, hlen, heq⟩
        · exact Or.inr (Or.inl h)
        · exact Or.inr (Or.inr ⟨l, hPl, hlen, heq⟩)
    · exact Or.inl hc
  | cons l rest ih =>
    intro cur acc hls hcur c hc
    simp only [chunkGo] at hc
    split at hc
    · rcases ih l (acc ++ [trimChars cur]) (fun m hm => hls m (List.mem_cons_of_mem _ hm))
        (Or.inr (hls l (List.mem_cons_self l rest))) c hc with hin | hrest
      · rcases List.mem_append.mp hin with hin | hin
        · exact Or.inl hin
        · have hceq : c = trimChars cur := by simpa using hin
          subst hceq
          rcases trim_emit_bound hcur with h | ⟨m, hPm, hlen, heq⟩
          · exact Or.inr (Or.inl h)
          · exact Or.inr (Or.inr ⟨m, hPm, hlen, heq⟩)
      · exact Or.inr hrest
    · rename_i hcond
      refine ih _ acc (fun m hm => hls m (List.mem_cons_of_mem _ hm)) ?_ c hc
      rcases Decidable.not_and_iff_or_not.mp hcond with hlen | hpos
      · left
        have : cur.length + l.length + 1 ≤ N := not_lt.mp hlen
        by_cases hcz : 0 < cur.length
        · simp only [hcz, if_true]
          simp only [List.length_append, List.length_cons, List.length_nil]
          omega
        · simp only [hcz, if_false]
          simp only [List.length_append, List.length_nil]
          omega
      · right
        have hnil : cur = [] := List.length_eq_zero.mp (by omega)
        subst hnil
        simpa using hls l (List.mem_cons_self l rest)

/-- C9: every chunk produced by splitTextIntoChunks has length at most
maxChunkSize, except that a chunk may be (the trim of) one single input line
whose own length exceeds maxChunkSize; such a line is emitted as its own
oversized chunk and no error is possible. -/
theorem splitTextIntoChunks_size_bound (text : JStr) (N : Nat) :
    ∀ c ∈ splitTextIntoChunks text N,
      c.length ≤ N ∨ ∃ l ∈ splitLines text, N < l.length ∧ c = trimChars l := by
  intro c hc
  have := chunkGo_mem_bound N (fun l => l ∈ splitLines text) (splitLines text) [] []
    (fun _ h => h) (Or.inl (by simp)) c hc
  rcases this with h | h | ⟨l, hl, hlen, heq⟩
  · exact absurd h (List.not_mem_nil c)
  · exact Or.inl h
  · exact Or.inr ⟨l, hl, hlen, heq⟩

/-- C9 witness: on a concrete text whose first line has five characters and
a budget of three, the first chunk is that whole oversized line. -/
theorem splitTextIntoChunks_size_bound_witness :
    ("aaaaa".toList).length ≤ 3 ∨
      ∃ l ∈ splitLines ("aaaaa\nbb".toList), 3 < l.length ∧ "aaaaa".toList = trimChars l :=
  splitTextIntoChunks_size_bound ("aaaaa\nbb".toList) 3 ("aaaaa".toList) (by decide)

/-- A chunk is clean when it is non-empty and bounded by non-whitespace on
both sides, so that trim leaves it unchanged. -/
def CleanChunk (s : JStr) : Prop :=
  s ≠ [] ∧ isJsWS s.headI = false ∧ isJsWS s.reverse.headI = false

lemma cleanLine_iff (l : JStr) :
    cleanLine l = true ↔ CleanChunk l := by
  unfold cleanLine CleanChunk
  cases l with
  | nil => simp
  | cons c cs => simp [List.isEmpty]

lemma headI_append_of_ne_nil {a : JStr} (b : JStr) (h : a ≠ []) :
    (a ++ b).headI = a.headI := by
  cases a with
  | nil => exact absurd rfl h
  | cons c cs => rfl

lemma trimChars_of_clean {s : JStr} (h : CleanChunk s) : trimChars s = s := by
  obtain ⟨hne, hh, ht⟩ := h
  unfold trimChars
  obtain ⟨c, t, rfl⟩ := List.exists_cons_of_ne_nil hne
  have h1 : List.dropWhile isJsWS (c :: t) = c :: t := by
    simp only [List.headI] at hh
    simp [List.dropWhile, hh]
  rw [h1]
  obtain ⟨d, u, hdu⟩ := List.exists_cons_of_ne_nil
    (show (c :: t).reverse ≠ [] by simp)
  rw [hdu]
  have hd : isJsWS d = false := by
    rw [hdu] at ht
    simpa [List.headI] using ht
  have h2 : List.dropWhile isJsWS (d :: u) = d :: u := by simp [List.dropWhile, hd]
  rw [h2, ← hdu, List.reverse_reverse]

lemma joinLines_append (a b : List JStr) (ha : a ≠ []) (hb : b ≠ []) :
    joinLines (a ++ b) = joinLines a ++ '\n' :: joinLines b := by
  induction a with
  | nil => exact absurd rfl ha
  | cons l a' ih =>
    cases a' with
    | nil =>
      simp only [List.singleton_append]
      rw [joinLines_cons _ _ hb]
      rfl
    | cons m a'' =>
      have hne : (m :: a'') ++ b ≠ [] := by simp
      rw [List.cons_append, joinLines_cons l ((m :: a'') ++ b) hne, ih (by simp),
        joinLines_cons l (m :: a'') (by simp)]
      simp

lemma joinLines_clean {g : List JStr} (hg : ∀ l ∈ g, cleanLine l = true) (hne : g ≠ []) :
    CleanChunk (joinLines g) := by
  induction g with
  | nil => exact absurd rfl hne
  | cons l g' ih =>
    cases g' with
    | nil => exact (cleanLine_iff l).mp (hg l (by simp))
    | cons m g'' =>
      have hl : CleanChunk l := (cleanLine_iff l).mp (hg l (by simp))
      have hrest : CleanChunk (joinLines (m :: g'')) :=
        ih (fun x hx => hg x (List.mem_cons_of_mem _ hx)) (by simp)
      rw [joinLines_cons _ _ (by simp)]
      refine ⟨by simp [hl.1], ?_, ?_⟩
      · rw [headI_append_of_ne_nil _ hl.1]
        exact hl.2.1
      · rw [List.reverse_append, List.reverse_cons,
          headI_append_of_ne_nil _ (by simp [hrest.1]),
          headI_append_of_ne_nil _ (by simp [hrest.1])]
        exact hrest.2.2

lemma flatten_ne_nil {gss : List (List JStr)} (h : gss ≠ [])
    (h2 : ∀ gs ∈ gss, gs ≠ []) : gss.flatten ≠ [] := by
  cases gss with
  | nil => exact absurd rfl h
  | cons gs t =>
    have : gs ≠ [] := h2 gs (by simp)
    simp [List.flatten, this]

lemma joinLines_map_flatten :
    ∀ (gss : List (List JStr)), (∀ gs ∈ gss, gs ≠ []) →
      joinLines (gss.map joinLines) = joinLines gss.flatten := by
  intro gss
  induction gss with
  | nil => intro _; rfl
  | cons gs rest ih =>
    intro h
    cases rest with
    | nil => simp [joinLines, List.flatten]
    | cons gs2 rest2 =>
      have hgs : gs ≠ [] := h gs (by simp)
      have hrest : ∀ g ∈ gs2 :: rest2, g ≠ [] := fun g hg => h g (List.mem_cons_of_mem _ hg)
      have hfl : (gs2 :: rest2).flatten ≠ [] := flatten_ne_nil (by simp) hrest
      have h1 : (gs :: gs2 :: rest2).flatten = gs ++ (gs2 :: rest2).flatten := rfl
      rw [h1, joinLines_append _ _ hgs hfl, ← ih hrest, List.map_cons,
        joinLines_cons (joinLines gs) (List.map joinLines (gs2 :: rest2)) (by simp)]

lemma splitLines_no_nl {l : JStr} (h : '\n' ∉ l) : splitLines l = [l] := by
  induction l with
  | nil => rfl
  | cons c t ih =>
    have hc : c ≠ '\n' := fun hc => h (hc ▸ List.mem_cons_self c t)
    have ht : '\n' ∉ t := fun hm => h (List.mem_cons_of_mem _ hm)
    simp only [splitLines, ih ht]
    simp [hc]

lemma splitLines_append_nl (l X : JStr) (h : '\n' ∉ l) :
    splitLines (l ++ '\n' :: X) = l :: splitLines X := by
  induction l with
  | nil =>
    simp only [List.nil_append, splitLines]
    rcases hX : splitLines X with _ | ⟨m, ms⟩
    · exact absurd hX (splitLines_ne_nil X)
    · simp
  | cons c t ih =>
    have hc : c ≠ '\n' := fun hc => h (hc ▸ List.mem_cons_self c t)
    have ht : '\n' ∉ t := fun hm => h (List.mem_cons_of_mem _ hm)
    simp only [List.cons_append, splitLines, List.append_eq]
    rw [ih ht]
    simp [hc]

lemma splitLines_joinLines :
    ∀ (gs : List JStr), (∀ l ∈ gs, '\n' ∉ l) → gs ≠ [] →
      splitLines (joinLines gs) = gs := by
  intro gs
  induction gs with
  | nil => intro _ h; exact absurd rfl h
  | cons l rest ih =>
    intro h _
    cases rest with
    | nil => exact splitLines_no_nl (h l (by simp))
    | cons m rest2 =>
      rw [joinLines_cons _ _ (by simp),
        splitLines_append_nl _ _ (h l (by simp)),
        ih (fun x hx => h x (List.mem_cons_of_mem _ hx)) (by simp)]

lemma exists_affix_of_mem_flatten {gs : List JStr} :
    ∀ {gss : List (List JStr)}, gs ∈ gss →
      ∃ pre post, gss.flatten = pre ++ gs ++ post := by
  intro gss
  induction gss with
  | nil => intro h; exact absurd h (List.not_mem_nil gs)
  | cons g0 t ih =>
    intro h
    rcases List.mem_cons.mp h with rfl | h
    · exact ⟨[], t.flatten, by simp⟩
    · obtain ⟨pre, post, hpp⟩ := ih h
      exact ⟨g0 ++ pre, post, by simp [hpp]⟩

lemma chunkGo_groups (N : Nat) (P : JStr → Prop) (hP : ∀ l, P l → cleanLine l = true) :
    ∀ (ls g : List JStr), (∀ l ∈ ls, P l) → (∀ l ∈ g, P l) → g ≠ [] →
      ∃ gss : List (List JStr),
        chunkGo N ls (joinLines g) [] = gss.map joinLines ∧
        gss.flatten = g ++ ls ∧
        ∀ gs ∈ gss, gs ≠ [] ∧ ∀ l ∈ gs, P l := by
  intro ls
  induction ls with
  | nil =>
    intro g hls hg hgne
    have hclean : CleanChunk (joinLines g) := joinLines_clean (fun x hx => hP x (hg x hx)) hgne
    refine ⟨[g], ?_, by simp, ?_⟩
    · simp only [chunkGo]
      rw [trimChars_of_clean hclean, if_pos (List.length_pos.mpr hclean.1)]
      simp
    · intro gs hgs
      rcases List.mem_singleton.mp hgs with rfl
      exact ⟨hgne, hg⟩
  | cons l rest ih =>
    intro g hls hg hgne
    have hclean : CleanChunk (joinLines g) := joinLines_clean (fun x hx => hP x (hg x hx)) hgne
    have hPl : P l := hls l (List.mem_cons_self l rest)
    have hrest : ∀ x ∈ rest, P x := fun x hx => hls x (List.mem_cons_of_mem _ hx)
    simp only [chunkGo]
    split
    · obtain ⟨gss0, heq, hfl, hprop⟩ := ih [l] hrest
        (by intro x hx; rcases List.mem_singleton.mp hx with rfl; exact hPl) (by simp)
      have heq' : chunkGo N rest l [] = gss0.map joinLines := heq
      refine ⟨g :: gss0, ?_, ?_, ?_⟩
      · rw [chunkGo_acc, trimChars_of_clean hclean, heq']
        simp
      · simp [hfl]
      · intro gs hgs
        rcases List.mem_cons.mp hgs with rfl | hgs
        · exact ⟨hgne, hg⟩
        · exact hprop gs hgs
    · have hcur : joinLines g ++ (if 0 < (joinLines g).length then ['\n'] else []) ++ l
          = joinLines (g ++ [l]) := by
        rw [if_pos (List.length_pos.mpr hclean.1), joinLines_append g [l] hgne (by simp)]
        simp [joinLines]
      obtain ⟨gss, heq, hfl, hprop⟩ := ih (g ++ [l]) hrest
        (by
          intro x hx
          rcases List.mem_append.mp hx with hx | hx
          · exact hg x hx
          · rcases List.mem_singleton.mp hx with rfl; exact hPl)
        (by simp)
      refine ⟨gss, ?_, ?_, hprop⟩
      · rw [hcur, heq]
      · rw [hfl]
        simp

/-- C2 amended: the chunker trims every emitted chunk and drops buffered
content that trims to nothing, so the exact round-trip only holds for texts
whose lines are all non-empty and free of leading or trailing whitespace.
For such texts, joining the chunks with one newline between consecutive
chunks reproduces the text exactly, and the lines of every chunk form a
consecutive run of whole input lines, so no line is ever split. -/
theorem splitTextIntoChunks_clean_roundtrip (text : JStr) (N : Nat)
    (h : ∀ l ∈ splitLines text, cleanLine l = true) :
    joinLines (splitTextIntoChunks text N) = text ∧
    ∀ c ∈ splitTextIntoChunks text N,
      splitLines c ≠ [] ∧ ∃ pre post, splitLines text = pre ++ splitLines c ++ post := by
  rcases hsl : splitLines text with _ | ⟨l0, ls0⟩
  · exact absurd hsl (splitLines_ne_nil text)
  have hstep : splitTextIntoChunks text N = chunkGo N ls0 l0 [] := by
    unfold splitTextIntoChunks
    rw [hsl]
    simp only [chunkGo, List.length_nil, lt_irrefl, and_false, if_false]
    simp
  have hmem : ∀ x ∈ splitLines text, cleanLine x = true := h
  obtain ⟨gss, heq, hfl, hprop⟩ :=
    chunkGo_groups N (fun x => x ∈ splitLines text) hmem ls0 [l0]
      (by intro x hx; rw [hsl]; exact List.mem_cons_of_mem _ hx)
      (by intro x hx; rcases List.mem_singleton.mp hx with rfl; rw [hsl]; exact List.mem_cons_self _ _)
      (by simp)
  have heq' : chunkGo N ls0 l0 [] = gss.map joinLines := heq
  have hchunks : splitTextIntoChunks text N = gss.map joinLines := hstep.trans heq'
  have hne : ∀ gs ∈ gss, gs ≠ [] := fun gs hgs => (hprop gs hgs).1
  have hflat : gss.flatten = splitLines text := by
    rw [hfl, hsl]
    simp
  constructor
  · rw [hchunks, joinLines_map_flatten gss hne, hflat, joinLines_splitLines]
  · intro c hc
    rw [hchunks] at hc
    obtain ⟨gs, hgs, rfl⟩ := List.mem_map.mp hc
    have hsplit : splitLines (joinLines gs) = gs :=
      splitLines_joinLines gs
        (fun x hx => mem_splitLines_no_newline text x ((hprop gs hgs).2 x hx))
        (hne gs hgs)
    obtain ⟨pre, post, hpp⟩ := exists_affix_of_mem_flatten hgs
    refine ⟨by rw [hsplit]; exact hne gs hgs, pre, post, ?_⟩
    rw [hsplit, ← hsl, ← hflat]
    exact hpp

/-- C2 counterexample: on the two-character text of a space followed by the
letter a, the single emitted chunk is trimmed, so joining the chunks does not
reproduce the text. -/
theorem splitTextIntoChunks_roundtrip_fails :
    joinLines (splitTextIntoChunks (" a".toList) 10) ≠ " a".toList := by decide

/-- C2 witness: a concrete clean two-line text round-trips exactly and no
chunk splits a line. -/
theorem splitTextIntoChunks_clean_roundtrip_witness :
    joinLines (splitTextIntoChunks ("ab\ncd".toList) 3) = "ab\ncd".toList ∧
    ∀ c ∈ splitTextIntoChunks ("ab\ncd".toList) 3,
      splitLines c ≠ [] ∧
        ∃ pre post, splitLines ("ab\ncd".toList) = pre ++ splitLines c ++ post :=
  splitTextIntoChunks_clean_roundtrip ("ab\ncd".toList) 3 (by decide)

/-- JSON value model for the provider response text. -/
inductive Json where
  | null
  | bool (b : Bool)
  | num (q : Rat)
  | str (s : JStr)
  | arr (elems : List Json)
  | obj (fields : List (JStr × Json))

/-- Whitespace accepted between JSON tokens by the JS JSON parser. -/
def isJsonWS (c : Char) : Bool :=
  c == ' ' || c == '\t' || c == '\n' || c == '\r'

/-- Hex digit value, for unicode escapes in JSON strings. -/
def hexVal (c : Char) : Option Nat :=
  if '0' ≤ c ∧ c ≤ '9' then some (c.toNat - '0'.toNat)
  else if 'a' ≤ c ∧ c ≤ 'f' then some (c.toNat - 'a'.toNat + 10)
  else if 'A' ≤ c ∧ c ≤ 'F' then some (c.toNat - 'A'.toNat + 10)
  else none

/-- JSON string body parser: input starts after the opening quote; returns
the decoded content and the rest after the closing quote.  Surrogate pairs
are approximated by Char.ofNat of the code unit. -/
def parseJsonString : Nat → JStr → Option (JStr × JStr)
  | 0, _ => none
  | _, [] => none
  | fuel + 1, c :: rest =>
    if c = '"' then some ([], rest)
    else if c = '\\' then
      match rest with
      | [] => none
      | e :: rest2 =>
        let dec :=
          if e = '"' then some ('"', rest2)
          else if e = '\\' then some ('\\', rest2)
          else if e = '/' then some ('/', rest2)
          else if e = 'b' then some ('\x08', rest2)
          else if e = 'f' then some ('\x0c', rest2)
          else if e = 'n' then some ('\n', rest2)
          else if e = 'r' then some ('\r', rest2)
          else if e = 't' then some ('\t', rest2)
          else if e = 'u' then
            match rest2 with
            | a :: b :: c2 :: d :: rest3 =>
              match hexVal a, hexVal b, hexVal c2, hexVal d with
              | some x, some y, some z, some w =>
                some (Char.ofNat (((x * 16 + y) * 16 + z) * 16 + w), rest3)
              | _, _, _, _ => none
            | _ => none
          else none
        match dec with
        | none => none
        | some (ch, rest3) => (parseJsonString fuel rest3).map (fun p => (ch :: p.1, p.2))
    else (parseJsonString fuel rest).map (fun p => (c :: p.1, p.2))

/-- Digit run of a number literal. -/
def takeDigits (s : JStr) : JStr × JStr :=
  (s.takeWhile Char.isDigit, s.dropWhile Char.isDigit)

def natOfDigits (ds : JStr) : Nat :=
  ds.foldl (fun acc c => acc * 10 + (c.toNat - '0'.toNat)) 0

/-- Assemble the rational value of a JSON number from its parts.  The JS
float is modelled as the exact decimal value. -/
def mkJsonNum (neg : Bool) (intDs fracDs : JStr) (eneg : Bool) (eds : JStr) : Rat :=
  let m : Nat := natOfDigits intDs * 10 ^ fracDs.length + natOfDigits fracDs
  let e : Nat := natOfDigits eds
  let numAbs : Nat := m * (if eneg then 1 else 10 ^ e)
  let num : Int := if neg then -(numAbs : Int) else (numAbs : Int)
  let den : Nat := 10 ^ fracDs.length * (if eneg then 10 ^ e else 1)
  mkRat num den

def parseJsonExpDigits (neg : Bool) (intDs fracDs : JStr) (s : JStr) : Option (Rat × JStr) :=
  let st := match s with
    | '+' :: r => (false, r)
    | '-' :: r => (true, r)
    | _ => (false, s)
  match takeDigits st.2 with
  | ([], _) => none
  | (eds, s2) => some (mkJsonNum neg intDs fracDs st.1 eds, s2)

def parseJsonExpPart (neg : Bool) (intDs fracDs : JStr) (s : JStr) : Option (Rat × JStr) :=
  match s with
  | 'e' :: r => parseJsonExpDigits neg intDs fracDs r
  | 'E' :: r => parseJsonExpDigits neg intDs fracDs r
  | _ => some (mkJsonNum neg intDs fracDs false [], s)

/-- JSON number parser (digit runs with optional sign, fraction, exponent). -/
def parseJsonNumber (s : JStr) : Option (Rat × JStr) :=
  let st := match s with
    | '-' :: r => (true, r)
    | _ => (false, s)
  match takeDigits st.2 with
  | ([], _) => none
  | (intDs, s2) =>
    match s2 with
    | '.' :: r =>
      match takeDigits r with
      | ([], _) => none
      | (fracDs, s3) => parseJsonExpPart st.1 intDs fracDs s3
    | _ => parseJsonExpPart st.1 intDs [] s2

mutual

/-- Recursive-descent JSON value parser with explicit fuel, modelling the
JS JSON.parse used on the provider response. -/
def parseJsonValue : Nat → JStr → Option (Json × JStr)
  | 0, _ => none
  | fuel + 1, s0 =>
    match s0.dropWhile isJsonWS with
    | [] => none
    | c :: rest =>
      if c = '"' then (parseJsonString (fuel + 1) rest).map (fun p => (Json.str p.1, p.2))
      else if c = '{' then
        match rest.dropWhile isJsonWS with
        | '}' :: r2 => some (Json.obj [], r2)
        | _ => parseJsonMembers fuel rest []
      else if c = '[' then
        match rest.dropWhile isJsonWS with
        | ']' :: r2 => some (Json.arr [], r2)
        | _ => parseJsonElems fuel rest []
      else if c = 't' then
        match rest with
        | 'r' :: 'u' :: 'e' :: r => some (Json.bool true, r)
        | _ => none
      else if c = 'f' then
        match rest with
        | 'a' :: 'l' :: 's' :: 'e' :: r => some (Json.bool false, r)
        | _ => none
      else if c = 'n' then
        match rest with
        | 'u' :: 'l' :: 'l' :: r => some (Json.null, r)
        | _ => none
      else (parseJsonNumber (c :: rest)).map (fun p => (Json.num p.1, p.2))

/-- Object member list parser, called after the opening brace or a comma. -/
def parseJsonMembers : Nat → JStr → List (JStr × Json) → Option (Json × JStr)
  | 0, _, _ => none
  | fuel + 1, s, acc =>
    match s.dropWhile isJsonWS with
    | '"' :: rest =>
      match parseJsonString (fuel + 1) rest with
      | none => none
      | some (key, r1) =>
        match r1.dropWhile isJsonWS with
        | ':' :: r2 =>
          match parseJsonValue fuel r2 with
          | none => none
          | some (v, r3) =>
            match r3.dropWhile isJsonWS with
            | ',' :: r4 => parseJsonMembers fuel r4 (acc ++ [(key, v)])
            | '}' :: r4 => some (Json.obj (acc ++ [(key, v)]), r4)
            | _ => none
        | _ => none
    | _ => none

/-- Array element list parser, called after the opening bracket or a comma. -/
def parseJsonElems : Nat → JStr → List Json → Option (Json × JStr)
  | 0, _, _ => none
  | fuel + 1, s, acc =>
    match parseJsonValue fuel s with
    | none => none
    | some (v, r1) =>
      match r1.dropWhile isJsonWS with
      | ',' :: r2 => parseJsonElems fuel r2 (acc ++ [v])
      | ']' :: r2 => some (Json.arr (acc ++ [v]), r2)
      | _ => none

end

/-- JSON.parse: parse one value and require only whitespace after it. -/
def jsonParse (s : JStr) : Option Json :=
  match parseJsonValue (s.length + 2) s with
  | some (v, rest) => if (rest.dropWhile isJsonWS).isEmpty then some v else none
  | none => none

/-- Property access parsed.key on a JSON value: only objects have fields,
and with duplicate keys the later assignment wins, as in JS. -/
def getField (j : Json) (key : JStr) : Option Json :=
  match j with
  | Json.obj fields => (fields.reverse.find? (fun kv => kv.1 == key)).map (fun kv => kv.2)
  | _ => none

/-- JS truthiness of a JSON value. -/
def jsTruthy : Json → Bool
  | Json.null => false
  | Json.bool b => b
  | Json.num q => !(q == 0)
  | Json.str s => !s.isEmpty
  | Json.arr _ => true
  | Json.obj _ => true

def digitChar (n : Nat) : Char := Char.ofNat ('0'.toNat + n)

def natDigitsGo : Nat → Nat → JStr → JStr
  | 0, _, acc => acc
  | _, 0, acc => acc
  | fuel + 1, n, acc => natDigitsGo fuel (n / 10) (digitChar (n % 10) :: acc)

/-- Decimal print of a natural number. -/
def natToChars (n : Nat) : JStr :=
  if n = 0 then ['0'] else natDigitsGo (n + 1) n []

def fracDigitsGo : Nat → Nat → Nat → JStr
  | 0, _, _ => []
  | fuel + 1, rem, den =>
    if rem = 0 then []
    else digitChar (rem * 10 / den) :: fracDigitsGo fuel (rem * 10 % den) den

/-- Decimal print of a rational, approximating the JS number-to-string
conversion on the exact decimal values that occur here. -/
def ratToChars (q : Rat) : JStr :=
  let sign : JStr := if q.num < 0 then ['-'] else []
  let a := q.num.natAbs
  let ip := a / q.den
  let rem := a % q.den
  if rem = 0 then sign ++ natToChars ip
  else sign ++ natToChars ip ++ '.' :: fracDigitsGo 32 rem q.den

mutual

/-- JS String(value) on a JSON value: arrays join their elements with
commas (null elements become empty), objects print as object Object. -/
def jsToChars : Json → JStr
  | Json.null => "null".toList
  | Json.bool true => "true".toList
  | Json.bool false => "false".toList
  | Json.num q => ratToChars q
  | Json.str s => s
  | Json.arr xs => jsJoinElems xs
  | Json.obj _ => "[object Object]".toList

def jsJoinElems : List Json → JStr
  | [] => []
  | [Json.null] => []
  | [x] => jsToChars x
  | Json.null :: xs => ',' :: jsJoinElems xs
  | x :: xs => jsToChars x ++ ',' :: jsJoinElems xs

end

/-- GrokService.cleanString on a possibly missing field value: null and
undefined become empty, strings are trimmed, and any other value is
stringified and trimmed. -/
def cleanString (v : Option Json) : JStr :=
  match v with
  | none => []
  | some Json.null => []
  | some (Json.str s) => trimChars s
  | some w => trimChars (jsToChars w)

/-- The basic address pattern of GrokService.cleanEmail: one at sign with a
non-empty whitespace-free local part, and a dot strictly inside the domain
part, which is whitespace-free and free of further at signs. -/
def emailOk (e : JStr) : Bool :=
  match e.findIdx? (fun c => c == '@') with
  | none => false
  | some i =>
    let a := e.take i
    let r := e.drop (i + 1)
    !a.isEmpty && a.all (fun c => !(isJsWS c) && !(c == '@')) &&
      r.all (fun c => !(isJsWS c) && !(c == '@')) &&
      ((r.drop 1).dropLast.contains '.')

/-- GrokService.cleanEmail: keep the cleaned value only when it matches the
address pattern, otherwise discard to empty. -/
def cleanEmail (v : Option Json) : JStr :=
  let email := cleanString v
  if emailOk email then email else []

structure HrPersonData where
  name : JStr
  email : JStr
  position : JStr
  company : JStr
  phone : JStr
  location : JStr
  department : JStr
  linkedin : JStr
  website : JStr
  additionalInfo : JStr
deriving DecidableEq, Repr

structure GrokAnalysisResponse where
  people : List HrPersonData
  confidence : Rat
  summary : JStr
deriving DecidableEq, Repr

/-- Field-wise cleaning of one person object in parseGrokResponse. -/
def cleanPerson (p : Json) : HrPersonData :=
  { name := cleanString (getField p ("name".toList))
    email := cleanEmail (getField p ("email".toList))
    position := cleanString (getField p ("position".toList))
    company := cleanString (getField p ("company".toList))
    phone := cleanString (getField p ("phone".toList))
    location := cleanString (getField p ("location".toList))
    department := cleanString (getField p ("department".toList))
    linkedin := cleanString (getField p ("linkedin".toList))
    website := cleanString (getField p ("website".toList))
    additionalInfo := cleanString (getField p ("additionalInfo".toList)) }

/-- The filter person and person.name of parseGrokResponse. -/
def personHasName (p : Json) : Bool :=
  jsTruthy p &&
    (match getField p ("name".toList) with
      | some v => jsTruthy v
      | none => false)

/-- First occurrence split: some (pre, post) when s = pre, pat, post with the
leftmost occurrence of pat; fuel is one more than the length of s. -/
def splitFirst : Nat → JStr → JStr → Option (JStr × JStr)
  | 0, _, _ => none
  | fuel + 1, pat, s =>
    if pat.isPrefixOf s then some ([], s.drop pat.length)
    else
      match s with
      | [] => none
      | c :: rest => (splitFirst fuel pat rest).map (fun p => (c :: p.1, p.2))

/-- The fenced-code regex of parseGrokResponse: the trimmed capture is the
text between the first occurrence of a json code fence opener and the next
fence, when both exist. -/
def extractFencedJson (content : JStr) : Option JStr :=
  match splitFirst (content.length + 1) ("```json".toList) content with
  | none => none
  | some (_, afterOpen) =>
    match splitFirst (afterOpen.length + 1) ("```".toList) afterOpen with
    | none => none
    | some (body, _) => some (trimChars body)

/-- Method two of parseGrokResponse: the substring from the first opening
brace to the last closing brace, required to come strictly after it. -/
def braceSubstring (content : JStr) : Option JStr :=
  match content.findIdx? (fun c => c == '{'), content.reverse.findIdx? (fun c => c == '}') with
  | some f, some rIdx =>
    let l := content.length - 1 - rIdx
    if f < l then some ((content.drop f).take (l + 1 - f)) else none
  | _, _ => none

/-- Check used for the truncation branch: the trimmed candidate ends with a
closing brace. -/
def trimEndsWithBrace (s : JStr) : Bool :=
  match (trimChars s).reverse with
  | '}' :: _ => true
  | _ => false

/-- Does the text after an opening brace start, after whitespace, with the
quoted key name, as in the person-object regex. -/
def startsWithNameKey (s : JStr) : Bool :=
  List.isPrefixOf ("\"name\"".toList) (s.dropWhile isJsWS)

/-- Global scan of the person-object regex: each match is an opening brace,
whitespace, the quoted name key, then everything up to the next closing
brace inclusive; scanning continues after each match. -/
def scanPersonMatches : Nat → JStr → List JStr
  | 0, _ => []
  | _, [] => []
  | fuel + 1, c :: rest =>
    if c = '{' ∧ startsWithNameKey rest then
      match rest.dropWhile (fun d => !(d == '}')) with
      | '}' :: r2 => ('{' :: rest.takeWhile (fun d => !(d == '}')) ++ ['}']) :: scanPersonMatches fuel r2
      | _ => []
    else scanPersonMatches fuel rest

def matchPersonObjects (s : JStr) : List JStr :=
  scanPersonMatches (s.length + 1) s

/-- The matches are parsed independently and failures dropped, as in the
map over JSON.parse with a null fallback followed by a truthiness filter. -/
def personObjectsOf (s : JStr) : List Json :=
  (matchPersonObjects s).filterMap jsonParse

/-- Replace every comma that is followed by optional whitespace and the
given closing character with just that character, as the repair regexes do. -/
def replaceCommaClose (close : Char) : Nat → JStr → JStr
  | 0, s => s
  | _, [] => []
  | fuel + 1, c :: rest =>
    if c = ',' then
      match rest.dropWhile isJsWS with
      | d :: r3 =>
        if d = close then close :: replaceCommaClose close fuel r3
        else c :: replaceCommaClose close fuel rest
      | [] => c :: replaceCommaClose close fuel rest
    else c :: replaceCommaClose close fuel rest

/-- Remove one trailing comma together with the whitespace after it. -/
def removeTrailingComma (s : JStr) : JStr :=
  match s.reverse.dropWhile isJsWS with
  | ',' :: rest => rest.reverse
  | _ => s

/-- Normalize a trailing closing brace by dropping whitespace after it. -/
def fixTrailingBrace (s : JStr) : JStr :=
  match s.reverse.dropWhile isJsWS with
  | '}' :: rest => ('}' :: rest).reverse
  | _ => s

/-- The light repair chain of parseGrokResponse, in source order. -/
def jsRepair (s : JStr) : JStr :=
  fixTrailingBrace (removeTrailingComma
    (replaceCommaClose ']' (s.length + 1) (replaceCommaClose '}' (s.length + 1) s)))

/-- The envelope rebuilt around independently extracted person objects; the
stringify-then-parse round trip of the source is modelled as the identity on
this value. -/
def envelope (people : List Json) (conf : Rat) : Json :=
  Json.obj [("people".toList, Json.arr people), ("confidence".toList, Json.num conf),
    ("summary".toList, Json.str ("HR data extracted successfully".toList))]

/-- The candidate-selection and parse-attempt cascade of parseGrokResponse:
truncation rescue at confidence 0.8, then direct parse, then parse of the
repaired text, then independent-object extraction at confidence 0.7. -/
def parsedOfFixed (jsonStr : JStr) : Option Json :=
  let truncatedFix : Option Json :=
    if !(trimEndsWithBrace jsonStr) then
      let ps := personObjectsOf jsonStr
      if 0 < ps.length then some (envelope ps (mkRat 8 10)) else none
    else none
  match truncatedFix with
  | some v => some v
  | none =>
    match jsonParse jsonStr with
    | some parsed => some parsed
    | none =>
      match jsonParse (jsRepair jsonStr) with
      | some parsed => some parsed
      | none =>
        let ps := personObjectsOf jsonStr
        if 0 < ps.length then some (envelope ps (mkRat 7 10)) else none

/-- Method one then method two of parseGrokResponse: prefer a fenced json
block, else the first-to-last brace substring; none models the thrown
no-JSON-found error. -/
def extractJsonStr (content : JStr) : Option JStr :=
  match extractFencedJson content with
  | some j => some j
  | none => braceSubstring content

/-- The non-exceptional body of GrokService.parseGrokResponse; none stands
for a thrown error, which the outer catch of the source turns into the
fallback result. -/
def parseGrokCore (content : JStr) : Option GrokAnalysisResponse :=
  match extractJsonStr content with
  | none => none
  | some jsonStr =>
    match parsedOfFixed jsonStr with
    | none => none
    | some parsed =>
      match getField parsed ("people".toList) with
      | some (Json.arr people) =>
        some
          { people := (people.filter personHasName).map cleanPerson
            confidence := max 0 (min 1
              (match getField parsed ("confidence".toList) with
                | some (Json.num q) => q
                | _ => mkRat 5 10))
            summary :=
              let s := cleanString (getField parsed ("summary".toList))
              if s.isEmpty then "HR data extracted successfully".toList else s }
      | _ => none

/-- The fallback result returned by the catch of parseGrokResponse. -/
def fallbackResponse : GrokAnalysisResponse :=
  { people := [], confidence := mkRat 1 10, summary := "Failed to parse AI response".toList }

/-- GrokService.parseGrokResponse: total, with the catch collapsing every
thrown error to the fallback result. -/
def parseGrokResponse (content : JStr) : GrokAnalysisResponse :=
  match parseGrokCore content with
  | some r => r
  | none => fallbackResponse

/-- C6 amended: parseGrokResponse is total; whenever the parsing body throws
(modelled by parseGrokCore returning none) the catch returns exactly the
fallback result with empty people, confidence 0.1 and the summary text
Failed to parse AI response; otherwise the successful body result is
returned unchanged. -/
theorem parseGrokResponse_total_fallback (content : JStr) :
    (∃ r, parseGrokCore content = some r ∧ parseGrokResponse content = r) ∨
    (parseGrokCore content = none ∧ parseGrokResponse content = fallbackResponse) := by
  unfold parseGrokResponse
  cases h : parseGrokCore content with
  | none => exact Or.inr ⟨rfl, rfl⟩
  | some r => exact Or.inl ⟨r, rfl, rfl⟩

/-- C6 counterexample: on an unrecoverable input the parser does return the
fallback, but its summary is Failed to parse AI response, not the text
parse failed stated by the claim. -/
theorem parseGrokResponse_fallback_summary_differs :
    parseGrokResponse ("hello".toList) = fallbackResponse ∧
      parseGrokResponse ("hello".toList) ≠
        { people := [], confidence := mkRat 1 10, summary := "parse failed".toList } := by
  constructor
  · decide
  · decide

lemma cleanEmail_empty_or_ok (v : Option Json) :
    cleanEmail v = [] ∨ emailOk (cleanEmail v) = true := by
  unfold cleanEmail
  by_cases h : emailOk (cleanString v) = true
  · right
    simp [h]
  · left
    simp [h]

lemma parseGrokCore_bounds {content : JStr} {r : GrokAnalysisResponse}
    (h : parseGrokCore content = some r) :
    0 ≤ r.confidence ∧ r.confidence ≤ 1 ∧
      ∀ p ∈ r.people, p.email = [] ∨ emailOk p.email = true := by
  unfold parseGrokCore at h
  split at h
  · exact absurd h (by simp)
  · split at h
    · exact absurd h (by simp)
    · split at h
      · simp only [Option.some.injEq] at h
        subst h
        refine ⟨le_max_left 0 _, max_le (by norm_num) (min_le_left _ _), ?_⟩
        intro p hp
        obtain ⟨q, _, rfl⟩ := List.mem_map.mp hp
        exact cleanEmail_empty_or_ok _
      · exact absurd h (by simp)

/-- C8: every result of parseGrokResponse has its confidence clamped to the
unit interval, on the success, truncation, repair and fallback paths alike,
and every person record carries an email that is either empty or matches
the basic address pattern. -/
theorem parseGrokResponse_confidence_email (content : JStr) :
    0 ≤ (parseGrokResponse content).confidence ∧
      (parseGrokResponse content).confidence ≤ 1 ∧
      ∀ p ∈ (parseGrokResponse content).people,
        p.email = [] ∨ emailOk p.email = true := by
  unfold parseGrokResponse
  cases h : parseGrokCore content with
  | none =>
    refine ⟨by decide, by decide, ?_⟩
    intro p hp
    exact absurd hp (by simp [fallbackResponse])
  | some r => exact parseGrokCore_bounds h

/-- C8 witness: on a concrete response whose confidence field is 2 the
result is clamped to 1, and the single extracted person has an empty email. -/
theorem parseGrokResponse_confidence_email_witness :
    0 ≤ (parseGrokResponse ("\x7b\"people\":[\x7b\"name\":\"A\",\"email\":\"bad\"\x7d],\"confidence\":2\x7d".toList)).confidence ∧
      (parseGrokResponse ("\x7b\"people\":[\x7b\"name\":\"A\",\"email\":\"bad\"\x7d],\"confidence\":2\x7d".toList)).confidence ≤ 1 ∧
      ((HrPersonData.mk ("A".toList) [] [] [] [] [] [] [] [] []).email = [] ∨
        emailOk ((HrPersonData.mk ("A".toList) [] [] [] [] [] [] [] [] []).email) = true) :=
  ⟨(parseGrokResponse_confidence_email _).1,
   (parseGrokResponse_confidence_email _).2.1,
   (parseGrokResponse_confidence_email
      ("\x7b\"people\":[\x7b\"name\":\"A\",\"email\":\"bad\"\x7d],\"confidence\":2\x7d".toList)).2.2
     _ (by decide)⟩

/-- Outcome of one HTTP attempt inside analyzeHrDataSingle: a 429 rate
limit, a non-ok status, an unreadable JSON body, a body with no usable
message content, or a usable content string. -/
inductive ApiOutcome where
  | rateLimited
  | httpError (status : Nat) (statusText : JStr)
  | badJson
  | noContent
  | ok (content : JStr)
deriving DecidableEq, Repr

/-- Result of one run of analyzeHrDataSingle: the returned value or the
propagated error, the number of requests sent, and the backoff delays in
milliseconds in the order they were waited. -/
structure SingleRunResult where
  result : Except JStr GrokAnalysisResponse
  attempts : Nat
  delays : List Nat
deriving Repr

/-- The retry loop of GrokService.analyzeHrDataSingle with maxRetries 3 and
baseDelay 10000 ms.  One fuel unit is one loop iteration, so fuel is
4 minus retryCount; a 429 waits baseDelay times 2 to the retryCount and
retries without a cap check, every other failure is caught and retried with
the same backoff only while retryCount is below maxRetries, and running out
of iterations models the final throw of Max retries exceeded. -/
def analyzeSingleGo (provider : Nat → ApiOutcome) :
    Nat → Nat → Nat → List Nat → SingleRunResult
  | 0, calls, _, delays =>
    ⟨Except.error ("Max retries exceeded".toList), calls, delays⟩
  | fuel + 1, calls, rc, delays =>
    match provider calls with
    | ApiOutcome.rateLimited =>
      analyzeSingleGo provider fuel (calls + 1) (rc + 1) (delays ++ [10000 * 2 ^ rc])
    | ApiOutcome.httpError _ _ =>
      if rc < 3 then
        analyzeSingleGo provider fuel (calls + 1) (rc + 1) (delays ++ [10000 * 2 ^ rc])
      else ⟨Except.error ("Grok API error".toList), calls + 1, delays⟩
    | ApiOutcome.badJson =>
      if rc < 3 then
        analyzeSingleGo provider fuel (calls + 1) (rc + 1) (delays ++ [10000 * 2 ^ rc])
      else ⟨Except.error ("Failed to parse JSON from Grok API".toList), calls + 1, delays⟩
    | ApiOutcome.noContent =>
      if rc < 3 then
        analyzeSingleGo provider fuel (calls + 1) (rc + 1) (delays ++ [10000 * 2 ^ rc])
      else ⟨Except.error ("No response from Grok API".toList), calls + 1, delays⟩
    | ApiOutcome.ok content =>
      if content.isEmpty then
        if rc < 3 then
          analyzeSingleGo provider fuel (calls + 1) (rc + 1) (delays ++ [10000 * 2 ^ rc])
        else ⟨Except.error ("No response from Grok API".toList), calls + 1, delays⟩
      else ⟨Except.ok (parseGrokResponse content), calls + 1, delays⟩

/-- GrokService.analyzeHrDataSingle as a function of the per-attempt
provider outcomes. -/
def analyzeHrDataSingle (provider : Nat → ApiOutcome) : SingleRunResult :=
  analyzeSingleGo provider 4 0 0 []

lemma analyzeSingleGo_attempts_le (provider : Nat → ApiOutcome) :
    ∀ (fuel calls rc : Nat) (delays : List Nat),
      (analyzeSingleGo provider fuel calls rc delays).attempts ≤ calls + fuel := by
  intro fuel
  induction fuel with
  | zero => intro calls rc delays; simp [analyzeSingleGo]
  | succ fuel ih =>
    intro calls rc delays
    have hle : ∀ d, (analyzeSingleGo provider fuel (calls + 1) (rc + 1) d).attempts ≤
        calls + (fuel + 1) :=
      fun d => le_trans (ih (calls + 1) (rc + 1) d) (by omega)
    rcases hp : provider calls with _ | ⟨st, stx⟩ | _ | _ | content <;>
      simp only [analyzeSingleGo, hp]
    · exact hle _
    · split
      · exact hle _
      · simp
    · split
      · exact hle _
      · simp
    · split
      · exact hle _
      · simp
    · split
      · split
        · exact hle _
        · simp
      · simp

/-- A loop iteration of analyzeHrDataSingle retries exactly when the
attempt was not a usable success: a 429, a non-ok status, an unreadable
body, or missing content. -/
def attemptFails (o : ApiOutcome) : Bool :=
  match o with
  | ApiOutcome.ok content => content.isEmpty
  | _ => true

lemma analyzeSingleGo_fail_step (provider : Nat → ApiOutcome) (fuel calls rc : Nat)
    (ds : List Nat) (hfail : attemptFails (provider calls) = true) (hrc : rc < 3)
    (hfuel : fuel ≠ 0) :
    analyzeSingleGo provider fuel calls rc ds =
      analyzeSingleGo provider (fuel - 1) (calls + 1) (rc + 1) (ds ++ [10000 * 2 ^ rc]) := by
  obtain ⟨f, rfl⟩ : ∃ f, fuel = f + 1 :=
    ⟨fuel - 1, (Nat.succ_pred_eq_of_pos (Nat.pos_of_ne_zero hfuel)).symm⟩
  simp only [Nat.add_sub_cancel]
  rcases hp : provider calls with _ | ⟨st, stx⟩ | _ | _ | content <;>
    simp only [analyzeSingleGo, hp]
  · rw [if_pos hrc]
  · rw [if_pos hrc]
  · rw [if_pos hrc]
  · have hemp : content.isEmpty = true := by
      rw [hp] at hfail
      simpa [attemptFails] using hfail
    rw [if_pos hemp, if_pos hrc]

lemma analyzeSingleGo_success_step (provider : Nat → ApiOutcome) (fuel calls rc : Nat)
    (ds : List Nat) (content : JStr) (hok : provider calls = ApiOutcome.ok content)
    (hne : content ≠ []) (hfuel : fuel ≠ 0) :
    analyzeSingleGo provider fuel calls rc ds =
      ⟨Except.ok (parseGrokResponse content), calls + 1, ds⟩ := by
  obtain ⟨f, rfl⟩ : ∃ f, fuel = f + 1 :=
    ⟨fuel - 1, (Nat.succ_pred_eq_of_pos (Nat.pos_of_ne_zero hfuel)).symm⟩
  have hemp : content.isEmpty = false := by
    cases content with
    | nil => exact absurd rfl hne
    | cons c cs => rfl
  simp [analyzeSingleGo, hok, hemp]

lemma analyzeSingleGo_exhaust_step (provider : Nat → ApiOutcome) (calls : Nat)
    (ds : List Nat) (hfail : attemptFails (provider calls) = true) :
    ∃ msg, analyzeSingleGo provider 1 calls 3 ds =
      ⟨Except.error msg, calls + 1,
        ds ++ (if provider calls = ApiOutcome.rateLimited then [10000 * 2 ^ 3] else [])⟩ := by
  rcases hp : provider calls with _ | ⟨st, stx⟩ | _ | _ | content <;>
    simp only [analyzeSingleGo, hp]
  · exact ⟨"Max retries exceeded".toList, by simp [analyzeSingleGo]⟩
  · exact ⟨"Grok API error".toList, by simp [analyzeSingleGo]⟩
  · exact ⟨"Failed to parse JSON from Grok API".toList, by simp [analyzeSingleGo]⟩
  · exact ⟨"No response from Grok API".toList, by simp [analyzeSingleGo]⟩
  · have hemp : content.isEmpty = true := by
      rw [hp] at hfail
      simpa [attemptFails] using hfail
    exact ⟨"No response from Grok API".toList, by simp [analyzeSingleGo, hemp]⟩

/-- C7: the single-request client never makes more than maxRetries plus one
requests.  For every mix of failing attempts, a 429 and every other error
alike, the k-th attempt succeeding after k failures (k at most 3) returns
the parsed result with exactly k plus one attempts after waiting the same
exponential backoff of 10000 times 2 to the retryCount milliseconds before
each retry; in particular two 429s followed by usable content give the
parsed result with three attempts and waits of 10 and 20 seconds.  When all
four attempts fail, of any kinds, a fatal analysis error propagates to the
caller after exactly four attempts and the three backoffs, plus a fourth
backoff only when the final attempt was a 429, as when every attempt is
rate limited. -/
theorem analyzeHrDataSingle_retry_policy (provider : Nat → ApiOutcome) :
    (analyzeHrDataSingle provider).attempts ≤ 4 ∧
    (∀ (k : Nat) (content : JStr), k ≤ 3 →
      (∀ i, i < k → attemptFails (provider i) = true) →
      provider k = ApiOutcome.ok content → content ≠ [] →
        analyzeHrDataSingle provider =
          ⟨Except.ok (parseGrokResponse content), k + 1,
            (List.range k).map (fun i => 10000 * 2 ^ i)⟩) ∧
    (provider 0 = ApiOutcome.rateLimited → provider 1 = ApiOutcome.rateLimited →
      ∀ content, provider 2 = ApiOutcome.ok content → content ≠ [] →
        analyzeHrDataSingle provider =
          ⟨Except.ok (parseGrokResponse content), 3, [10000, 20000]⟩) ∧
    ((∀ n, n < 4 → provider n = ApiOutcome.rateLimited) →
      analyzeHrDataSingle provider =
        ⟨Except.error ("Max retries exceeded".toList), 4, [10000, 20000, 40000, 80000]⟩) ∧
    ((∀ n, n < 4 → attemptFails (provider n) = true) →
      ∃ msg, analyzeHrDataSingle provider =
        ⟨Except.error msg, 4,
          [10000, 20000, 40000] ++
            (if provider 3 = ApiOutcome.rateLimited then [80000] else [])⟩) := by
  refine ⟨analyzeSingleGo_attempts_le provider 4 0 0 [], ?_, ?_, ?_, ?_⟩
  · intro k content hk hfails hok hne
    interval_cases k
    · unfold analyzeHrDataSingle
      rw [analyzeSingleGo_success_step provider 4 0 0 [] content hok hne (by omega)]
      simp
    · unfold analyzeHrDataSingle
      rw [analyzeSingleGo_fail_step provider 4 0 0 [] (hfails 0 (by omega)) (by omega) (by omega)]
      rw [analyzeSingleGo_success_step provider (4 - 1) (0 + 1) (0 + 1) ([] ++ [10000 * 2 ^ 0])
        content hok hne (by omega)]
      norm_num [List.range_succ]
    · unfold analyzeHrDataSingle
      rw [analyzeSingleGo_fail_step provider 4 0 0 [] (hfails 0 (by omega)) (by omega) (by omega)]
      rw [analyzeSingleGo_fail_step provider (4 - 1) (0 + 1) (0 + 1) ([] ++ [10000 * 2 ^ 0])
        (hfails 1 (by omega)) (by omega) (by omega)]
      rw [analyzeSingleGo_success_step provider (4 - 1 - 1) (0 + 1 + 1) (0 + 1 + 1)
        ([] ++ [10000 * 2 ^ 0] ++ [10000 * 2 ^ (0 + 1)]) content hok hne (by omega)]
      norm_num [List.range_succ]
    · unfold analyzeHrDataSingle
      rw [analyzeSingleGo_fail_step provider 4 0 0 [] (hfails 0 (by omega)) (by omega) (by omega)]
      rw [analyzeSingleGo_fail_step provider (4 - 1) (0 + 1) (0 + 1) ([] ++ [10000 * 2 ^ 0])
        (hfails 1 (by omega)) (by omega) (by omega)]
      rw [analyzeSingleGo_fail_step provider (4 - 1 - 1) (0 + 1 + 1) (0 + 1 + 1)
        ([] ++ [10000 * 2 ^ 0] ++ [10000 * 2 ^ (0 + 1)]) (hfails 2 (by omega)) (by omega)
        (by omega)]
      rw [analyzeSingleGo_success_step provider (4 - 1 - 1 - 1) (0 + 1 + 1 + 1) (0 + 1 + 1 + 1)
        ([] ++ [10000 * 2 ^ 0] ++ [10000 * 2 ^ (0 + 1)] ++ [10000 * 2 ^ (0 + 1 + 1)])
        content hok hne (by omega)]
      norm_num [List.range_succ]
  · intro h0 h1 content h2 hne
    have hempty : content.isEmpty = false := by
      cases content with
      | nil => exact absurd rfl hne
      | cons c cs => rfl
    unfold analyzeHrDataSingle
    simp [analyzeSingleGo, h0, h1, h2, hempty]
  · intro hall
    have h0 := hall 0 (by omega)
    have h1 := hall 1 (by omega)
    have h2 := hall 2 (by omega)
    have h3 := hall 3 (by omega)
    unfold analyzeHrDataSingle
    simp [analyzeSingleGo, h0, h1, h2, h3]
  · intro hfails
    unfold analyzeHrDataSingle
    rw [analyzeSingleGo_fail_step provider 4 0 0 [] (hfails 0 (by omega)) (by omega) (by omega)]
    rw [analyzeSingleGo_fail_step provider (4 - 1) (0 + 1) (0 + 1) ([] ++ [10000 * 2 ^ 0])
      (hfails 1 (by omega)) (by omega) (by omega)]
    rw [analyzeSingleGo_fail_step provider (4 - 1 - 1) (0 + 1 + 1) (0 + 1 + 1)
      ([] ++ [10000 * 2 ^ 0] ++ [10000 * 2 ^ (0 + 1)]) (hfails 2 (by omega)) (by omega)
      (by omega)]
    obtain ⟨msg, hmsg⟩ := analyzeSingleGo_exhaust_step provider (0 + 1 + 1 + 1)
      ([] ++ [10000 * 2 ^ 0] ++ [10000 * 2 ^ (0 + 1)] ++ [10000 * 2 ^ (0 + 1 + 1)])
      (hfails 3 (by omega))
    refine ⟨msg, ?_⟩
    rw [show (4 - 1 - 1 - 1 : Nat) = 1 from rfl, show (0 + 1 + 1 + 1 : Nat) = 3 from rfl] at *
    rw [hmsg]
    norm_num

/-- C7 witness: a provider that rate limits twice and then answers returns
the parsed result in three attempts with waits of 10 and 20 seconds; a
provider failing twice with a 500 status behaves with the same backoff; and
a provider failing every attempt with a 500 status propagates an error
after four attempts and three backoffs. -/
theorem analyzeHrDataSingle_retry_policy_witness :
    (analyzeHrDataSingle
        (fun n => if n < 2 then ApiOutcome.rateLimited else ApiOutcome.ok ("x".toList))).attempts ≤ 4 ∧
    analyzeHrDataSingle
        (fun n => if n < 2 then ApiOutcome.rateLimited else ApiOutcome.ok ("x".toList)) =
      ⟨Except.ok (parseGrokResponse ("x".toList)), 3, [10000, 20000]⟩ ∧
    analyzeHrDataSingle
        (fun n => if n < 2 then ApiOutcome.httpError 500 [] else ApiOutcome.ok ("x".toList)) =
      ⟨Except.ok (parseGrokResponse ("x".toList)), 2 + 1,
        (List.range 2).map (fun i => 10000 * 2 ^ i)⟩ ∧
    (∃ msg, analyzeHrDataSingle (fun _ => ApiOutcome.httpError 500 []) =
      ⟨Except.error msg, 4,
        [10000, 20000, 40000] ++
          (if (fun _ => ApiOutcome.httpError 500 ([] : JStr)) 3 = ApiOutcome.rateLimited
            then [80000] else [])⟩) :=
  ⟨(analyzeHrDataSingle_retry_policy _).1,
   (analyzeHrDataSingle_retry_policy _).2.2.1 rfl rfl ("x".toList) rfl (by decide),
   (analyzeHrDataSingle_retry_policy _).2.1 2 ("x".toList) (by omega) (by decide) rfl (by decide),
   (analyzeHrDataSingle_retry_policy _).2.2.2.2 (by decide)⟩

/-- Shared-corpus record, with the fields used by the modelled services; id
models the Mongo document id. -/
structure HrData where
  id : JStr
  name : JStr
  email : JStr
  position : JStr
  company : JStr
  source : JStr
  extractionType : JStr
  confidence : Rat
  batchId : JStr
  chunkIndex : Nat
  totalChunks : Nat
deriving DecidableEq, Repr

/-- The three-clause or-query of MongoDBService.filterDuplicateRecords: the
candidate record matches an existing document on email and name, or email
alone, or name and company. -/
def hrDupMatch (record existing : HrData) : Bool :=
  (existing.email == record.email && existing.name == record.name) ||
  existing.email == record.email ||
  (existing.name == record.name && existing.company == record.company)

/-- The findOne of filterDuplicateRecords: first stored document, in
insertion order, that matches the candidate. -/
def findDuplicate (store : List HrData) (record : HrData) : Option HrData :=
  store.find? (fun e => hrDupMatch record e)

/-- Loop of MongoDBService.filterDuplicateRecords: each candidate is kept
only when no stored document matches it; candidates are only compared with
the store, never with each other. -/
def filterDuplicateRecords (store : List HrData) : List HrData → List HrData
  | [] => []
  | r :: rest =>
    if (findDuplicate store r).isSome then filterDuplicateRecords store rest
    else r :: filterDuplicateRecords store rest

/-- MongoDBService.saveHrData: filter duplicates, return early with nothing
saved when none survive, otherwise insert the survivors; returns the saved
records and the new store. -/
def saveHrData (store : List HrData) (hrDataArray : List HrData) :
    List HrData × List HrData :=
  let uniqueRecords := filterDuplicateRecords store hrDataArray
  if uniqueRecords.isEmpty then ([], store)
  else (uniqueRecords, store ++ uniqueRecords)

/-- MongoDBService.checkBatchExists: a positive count of documents with the
batch id. -/
def checkBatchExists (store : List HrData) (batchId : JStr) : Bool :=
  0 < (store.filter (fun r => r.batchId == batchId)).length

/-- MongoDBService.getHrDataByBatch restricted to the selection; the sort
by chunk index is the insertion order here. -/
def getHrDataByBatch (store : List HrData) (batchId : JStr) : List HrData :=
  store.filter (fun r => r.batchId == batchId)

/-- A candidate record headed for a user corpus (an incomplete user document
before user metadata is attached). -/
structure UserHrRecord where
  name : JStr
  email : JStr
  position : JStr
  company : JStr
  source : JStr
  extractionType : JStr
  confidence : Rat
  isDuplicateInMaster : Bool
  masterDataId : Option JStr
deriving DecidableEq, Repr

/-- Stored user-corpus document. -/
structure UserHrData where
  userId : Nat
  userEmail : JStr
  name : JStr
  email : JStr
  position : JStr
  company : JStr
  isDuplicateInMaster : Bool
  masterDataId : Option JStr
  batchId : JStr
deriving DecidableEq, Repr

/-- The same three-clause match rule against a user-corpus document. -/
def userDupMatch (record : UserHrRecord) (existing : UserHrData) : Bool :=
  (existing.email == record.email && existing.name == record.name) ||
  existing.email == record.email ||
  (existing.name == record.name && existing.company == record.company)

/-- The same three-clause match rule against a shared-corpus document. -/
def masterDupMatch (record : UserHrRecord) (existing : HrData) : Bool :=
  (existing.email == record.email && existing.name == record.name) ||
  existing.email == record.email ||
  (existing.name == record.name && existing.company == record.company)

/-- UserHrDataService.filterUserDuplicateRecords: drop a candidate that
matches one of the documents of the same user; otherwise look it up in the
master corpus and keep it, flagged as duplicate-in-master with a reference
when a master document matches, and flagged false otherwise. -/
def filterUserDuplicateRecords (userId : Nat) (userStore : List UserHrData)
    (masterStore : List HrData) : List UserHrRecord → List UserHrRecord
  | [] => []
  | r :: rest =>
    if (userStore.find? (fun e => e.userId == userId && userDupMatch r e)).isSome then
      filterUserDuplicateRecords userId userStore masterStore rest
    else
      (match masterStore.find? (fun e => masterDupMatch r e) with
        | some m => { r with isDuplicateInMaster := true, masterDataId := some m.id }
        | none => { r with isDuplicateInMaster := false }) ::
        filterUserDuplicateRecords userId userStore masterStore rest

/-- The user metadata attached by UserHrDataService.saveUserHrData before
the insert. -/
def attachUserMeta (userId : Nat) (userEmail batchId : JStr) (c : UserHrRecord) :
    UserHrData :=
  { userId := userId, userEmail := userEmail, name := c.name, email := c.email,
    position := c.position, company := c.company,
    isDuplicateInMaster := c.isDuplicateInMaster, masterDataId := c.masterDataId,
    batchId := batchId }

/-- UserHrDataService.saveUserHrData: filter against the user corpus and
cross-reference the master corpus, return early when nothing survives, and
otherwise insert the survivors with user metadata attached. -/
def saveUserHrData (userId : Nat) (userEmail : JStr) (userStore : List UserHrData)
    (masterStore : List HrData) (hrDataArray : List UserHrRecord) (batchId : JStr) :
    List UserHrData × List UserHrData :=
  let uniqueRecords := filterUserDuplicateRecords userId userStore masterStore hrDataArray
  if uniqueRecords.isEmpty then ([], userStore)
  else
    let userRecords := uniqueRecords.map (attachUserMeta userId userEmail batchId)
    (userRecords, userStore ++ userRecords)

/-- C5: a candidate matches the shared corpus exactly when some stored
document agrees on email and name, or on email alone, or on name and
company; a matched candidate is dropped, so saving a record and then saving
a second record with the same name and email leaves the store exactly as
after the first save, hence one stored copy when the store started empty. -/
theorem saveHrData_second_submission_dropped :
    (∀ (store : List HrData) (c : HrData),
      (findDuplicate store c).isSome ↔
        ∃ e ∈ store,
          (e.email = c.email ∧ e.name = c.name) ∨ e.email = c.email ∨
            (e.name = c.name ∧ e.company = c.company)) ∧
    ∀ (s0 : List HrData) (r1 r2 : HrData),
      findDuplicate s0 r1 = none → r2.email = r1.email → r2.name = r1.name →
        (saveHrData s0 [r1]).2 = s0 ++ [r1] ∧
        (saveHrData ((saveHrData s0 [r1]).2) [r2]).1 = [] ∧
        (saveHrData ((saveHrData s0 [r1]).2) [r2]).2 = s0 ++ [r1] ∧
        (s0 = [] → (saveHrData ((saveHrData s0 [r1]).2) [r2]).2 = [r1]) := by
  constructor
  · intro store c
    rw [findDuplicate, List.find?_isSome]
    constructor
    · rintro ⟨e, he, hm⟩
      refine ⟨e, he, ?_⟩
      have := by simpa [hrDupMatch] using hm
      tauto
    · rintro ⟨e, he, hm⟩
      refine ⟨e, he, ?_⟩
      simp only [hrDupMatch, Bool.or_eq_true, Bool.and_eq_true, beq_iff_eq]
      tauto
  · intro s0 r1 r2 hnew hemail hname
    have hnodup1 : (findDuplicate s0 r1).isSome = false := by rw [hnew]; rfl
    have huniq1 : filterDuplicateRecords s0 [r1] = [r1] := by
      simp [filterDuplicateRecords, hnodup1]
    have hsave1 : saveHrData s0 [r1] = ([r1], s0 ++ [r1]) := by
      simp [saveHrData, huniq1]
    have hdup2 : (findDuplicate (s0 ++ [r1]) r2).isSome := by
      rw [findDuplicate, List.find?_isSome]
      exact ⟨r1, by simp, by simp [hrDupMatch, hemail]⟩
    have huniq2 : filterDuplicateRecords (s0 ++ [r1]) [r2] = [] := by
      simp [filterDuplicateRecords, hdup2]
    have hsave2 : saveHrData (s0 ++ [r1]) [r2] = ([], s0 ++ [r1]) := by
      simp [saveHrData, huniq2]
    rw [hsave1]
    refine ⟨rfl, ?_, ?_, ?_⟩
    · rw [hsave2]
    · rw [hsave2]
    · intro h0
      rw [hsave2, h0]
      rfl

/-- A sample shared-corpus record for the concrete witnesses. -/
def janeHr : HrData :=
  { id := "id1".toList, name := "Jane Doe".toList, email := "jane@x.com".toList,
    position := "Engineer".toList, company := "Acme".toList, source := "s".toList,
    extractionType := "general".toList, confidence := mkRat 9 10,
    batchId := "b1".toList, chunkIndex := 0, totalChunks := 1 }

/-- C5 witness: submitting the same name and email twice into an empty
shared corpus stores exactly one record. -/
theorem saveHrData_second_submission_dropped_witness :
    (saveHrData [] [janeHr]).2 = [] ++ [janeHr] ∧
    (saveHrData ((saveHrData [] [janeHr]).2) [janeHr]).1 = [] ∧
    (saveHrData ((saveHrData [] [janeHr]).2) [janeHr]).2 = [] ++ [janeHr] ∧
    (([] : List HrData) = [] → (saveHrData ((saveHrData [] [janeHr]).2) [janeHr]).2 = [janeHr]) :=
  saveHrData_second_submission_dropped.2 [] janeHr janeHr (by decide) rfl rfl

/-- C4: in the user scope the engine first checks the own corpus of the user and
a match drops the candidate entirely; only otherwise is the shared corpus
consulted, and the candidate is still persisted, flagged duplicate-in-master
with a reference to the matching shared document when one exists and
flagged false when none does. -/
theorem filterUserDuplicateRecords_user_scope (userId : Nat) (uS : List UserHrData)
    (mS : List HrData) (r : UserHrRecord) (rest : List UserHrRecord) :
    ((uS.find? (fun e => e.userId == userId && userDupMatch r e)).isSome →
      filterUserDuplicateRecords userId uS mS (r :: rest) =
        filterUserDuplicateRecords userId uS mS rest) ∧
    (uS.find? (fun e => e.userId == userId && userDupMatch r e) = none →
      ∀ m, mS.find? (fun e => masterDupMatch r e) = some m →
        filterUserDuplicateRecords userId uS mS (r :: rest) =
          { r with isDuplicateInMaster := true, masterDataId := some m.id } ::
            filterUserDuplicateRecords userId uS mS rest) ∧
    (uS.find? (fun e => e.userId == userId && userDupMatch r e) = none →
      mS.find? (fun e => masterDupMatch r e) = none →
        filterUserDuplicateRecords userId uS mS (r :: rest) =
          { r with isDuplicateInMaster := false } ::
            filterUserDuplicateRecords userId uS mS rest) ∧
    (uS.find? (fun e => e.userId == userId && userDupMatch r e) = none →
      ∀ m, mS.find? (fun e => masterDupMatch r e) = some m →
        ∀ (userEmail batchId : JStr),
          (saveUserHrData userId userEmail uS mS [r] batchId).2 =
            uS ++ [attachUserMeta userId userEmail batchId
              { r with isDuplicateInMaster := true, masterDataId := some m.id }]) ∧
    (uS.find? (fun e => e.userId == userId && userDupMatch r e) = none →
      mS.find? (fun e => masterDupMatch r e) = none →
        ∀ (userEmail batchId : JStr),
          (saveUserHrData userId userEmail uS mS [r] batchId).2 =
            uS ++ [attachUserMeta userId userEmail batchId
              { r with isDuplicateInMaster := false }]) := by
  refine ⟨?_, ?_, ?_, ?_, ?_⟩
  · intro h
    simp [filterUserDuplicateRecords, h]
  · intro h m hm
    simp [filterUserDuplicateRecords, h, hm]
  · intro h hm
    simp [filterUserDuplicateRecords, h, hm]
  · intro h m hm userEmail batchId
    have huniq : filterUserDuplicateRecords userId uS mS [r] =
        [{ r with isDuplicateInMaster := true, masterDataId := some m.id }] := by
      simp [filterUserDuplicateRecords, h, hm]
    simp [saveUserHrData, huniq]
  · intro h hm userEmail batchId
    have huniq : filterUserDuplicateRecords userId uS mS [r] =
        [{ r with isDuplicateInMaster := false }] := by
      simp [filterUserDuplicateRecords, h, hm]
    simp [saveUserHrData, huniq]

/-- A sample candidate for the user-scope witnesses. -/
def janeCandidate : UserHrRecord :=
  { name := "Jane Doe".toList, email := "jane@x.com".toList,
    position := "Engineer".toList, company := "Acme".toList, source := "s".toList,
    extractionType := "general".toList, confidence := mkRat 9 10,
    isDuplicateInMaster := false, masterDataId := none }

/-- C4 witness: with an empty user corpus and the shared corpus holding the
matching record, the candidate is persisted into the user corpus flagged as
duplicate-in-master with the reference id. -/
theorem filterUserDuplicateRecords_user_scope_witness :
    (saveUserHrData 7 ("u@y.com".toList) [] [janeHr] [janeCandidate] ("b2".toList)).2 =
      [] ++ [attachUserMeta 7 ("u@y.com".toList) ("b2".toList)
        { janeCandidate with isDuplicateInMaster := true, masterDataId := some janeHr.id }] :=
  (filterUserDuplicateRecords_user_scope 7 [] [janeHr] janeCandidate []).2.2.2.1
    rfl janeHr (by decide) ("u@y.com".toList) ("b2".toList)

/-- C10: the duplicate filters compare candidates only with stored records,
never with the other candidates of the same array, so an array holding the
same record twice is inserted twice by a single save call in both scopes. -/
theorem within_batch_duplicates_not_filtered :
    (∀ (s : List HrData) (r : HrData), findDuplicate s r = none →
      saveHrData s [r, r] = ([r, r], s ++ [r, r])) ∧
    (∀ (userId : Nat) (uS : List UserHrData) (mS : List HrData) (c : UserHrRecord),
      uS.find? (fun e => e.userId == userId && userDupMatch c e) = none →
      mS.find? (fun e => masterDupMatch c e) = none →
      ∀ (userEmail batchId : JStr),
        (saveUserHrData userId userEmail uS mS [c, c] batchId).2 =
          uS ++ [attachUserMeta userId userEmail batchId { c with isDuplicateInMaster := false },
            attachUserMeta userId userEmail batchId { c with isDuplicateInMaster := false }]) := by
  constructor
  · intro s r hnone
    have hnodup : (findDuplicate s r).isSome = false := by rw [hnone]; rfl
    have huniq : filterDuplicateRecords s [r, r] = [r, r] := by
      simp [filterDuplicateRecords, hnodup]
    simp [saveHrData, huniq]
  · intro userId uS mS c hu hm userEmail batchId
    have huniq : filterUserDuplicateRecords userId uS mS [c, c] =
        [{ c with isDuplicateInMaster := false }, { c with isDuplicateInMaster := false }] := by
      simp [filterUserDuplicateRecords, hu, hm]
    simp [saveUserHrData, huniq]

/-- C10 witness: the same concrete record twice in one array is stored
twice in the shared corpus, and the same concrete candidate twice is stored
twice in the user corpus. -/
theorem within_batch_duplicates_not_filtered_witness :
    saveHrData [] [janeHr, janeHr] = ([janeHr, janeHr], [] ++ [janeHr, janeHr]) ∧
    (saveUserHrData 7 ("u@y.com".toList) [] [] [janeCandidate, janeCandidate] ("b2".toList)).2 =
      [] ++ [attachUserMeta 7 ("u@y.com".toList) ("b2".toList)
          { janeCandidate with isDuplicateInMaster := false },
        attachUserMeta 7 ("u@y.com".toList) ("b2".toList)
          { janeCandidate with isDuplicateInMaster := false }] :=
  ⟨within_batch_duplicates_not_filtered.1 [] janeHr (by decide),
   within_batch_duplicates_not_filtered.2 7 [] [] janeCandidate rfl rfl
     ("u@y.com".toList) ("b2".toList)⟩

/-- The batch id of HrExtractionService.extractFromText: a text prefix, the
first eight hex characters of the md5 content hash, a dash, and the first
eight characters of a freshly generated random UUID.  The md5 digest is an
external primitive and is passed in as a function; the uuid argument is the
random value drawn by this call. -/
def textBatchId (md5hex : JStr → JStr) (uuid : JStr) (text : JStr) : JStr :=
  "text-".toList ++ (md5hex text).take 8 ++ "-".toList ++ uuid.take 8

/-- The record written by the save callback of extractFromText for one
extracted person of a single-request analysis. -/
def toHrData (batchId source extractionType : JStr) (chunkIndex totalChunks : Nat)
    (confidence : Rat) (p : HrPersonData) : HrData :=
  { id := [], name := p.name, email := p.email, position := p.position,
    company := p.company, source := source, extractionType := extractionType,
    confidence := confidence, batchId := batchId, chunkIndex := chunkIndex,
    totalChunks := totalChunks }

/-- Observable outcome of one extractFromText call: the batch id it
computed, the people it returned, whether the AI provider was invoked, and
the shared store after the call. -/
structure ExtractOutcome where
  batchId : JStr
  people : List HrPersonData
  providerCalled : Bool
  store : List HrData
deriving Repr

/-- HrExtractionService.extractFromText: validate the text, derive the
batch id from the content hash and a fresh random uuid, short-circuit to
stored records when the batch id already exists, and otherwise run the AI
analysis (the analyze argument is the GrokService client; texts under the
50000-character threshold take the single-request path) and persist the
extracted people through the save callback with chunk index 0 of 1. -/
def extractFromText (md5hex : JStr → JStr) (uuid : JStr)
    (analyze : JStr → Except JStr GrokAnalysisResponse)
    (text : JStr) (source : JStr) (store : List HrData) : Except JStr ExtractOutcome :=
  if (trimChars text).isEmpty then Except.error ("No text provided".toList)
  else
    if checkBatchExists store (textBatchId md5hex uuid text) then
      Except.ok
        { batchId := textBatchId md5hex uuid text
          people := (getHrDataByBatch store (textBatchId md5hex uuid text)).map (fun rec =>
            HrPersonData.mk rec.name rec.email rec.position rec.company [] [] [] [] [] [])
          providerCalled := false
          store := store }
    else
      match analyze text with
      | Except.error e => Except.error e
      | Except.ok aiResult =>
        Except.ok
          { batchId := textBatchId md5hex uuid text
            people := aiResult.people
            providerCalled := true
            store :=
              if aiResult.people.isEmpty then store
              else (saveHrData store (aiResult.people.map
                (toHrData (textBatchId md5hex uuid text) source ("general".toList) 0 1
                  aiResult.confidence))).2 }

lemma extractFromText_fresh (md5hex : JStr → JStr) (uuid : JStr)
    (analyze : JStr → Except JStr GrokAnalysisResponse) (text source : JStr)
    (store : List HrData) (resp : GrokAnalysisResponse)
    (h1 : (trimChars text).isEmpty = false)
    (h2 : checkBatchExists store (textBatchId md5hex uuid text) = false)
    (h3 : analyze text = Except.ok resp) :
    extractFromText md5hex uuid analyze text source store =
      Except.ok
        { batchId := textBatchId md5hex uuid text
          people := resp.people
          providerCalled := true
          store :=
            if resp.people.isEmpty then store
            else (saveHrData store (resp.people.map
              (toHrData (textBatchId md5hex uuid text) source ("general".toList) 0 1
                resp.confidence))).2 } := by
  unfold extractFromText
  rw [h1, h2, h3]
  simp

/-- The sample text of the idempotency scenario. -/
def idemText : JStr := "Jane Doe, jane@x.com, Engineer, Acme".toList

/-- A provider content string extracting one person, used to instantiate
the analysis client in the idempotency theorem. -/
def idemContent : JStr :=
  "\x7b\"people\":[\x7b\"name\":\"Jane Doe\",\"email\":\"jane@x.com\"\x7d],\"confidence\":0.9,\"summary\":\"ok\"\x7d".toList

/-- The analysis client instantiated with a provider that always answers
with idemContent on the first attempt. -/
def analyzeIdem : JStr → Except JStr GrokAnalysisResponse :=
  fun _ => (analyzeHrDataSingle (fun _ => ApiOutcome.ok idemContent)).result

/-- The person extracted from idemContent. -/
def janeP : HrPersonData :=
  ⟨"Jane Doe".toList, "jane@x.com".toList, [], [], [], [], [], [], [], []⟩

/-- C1 evidence: the batch id embeds a fresh random uuid fragment, so two
calls of extractFromText with identical text in the shared scope compute
different batch ids; the existence check of the second call therefore finds
nothing and the AI provider is invoked again instead of short-circuiting.
This holds for every md5 digest function, witnessed at the scenario text
with two concrete uuids drawn by the two calls. -/
theorem extractFromText_reprocesses_identical_text (md5hex : JStr → JStr) :
    ∃ r1 r2 : ExtractOutcome,
      extractFromText md5hex ("aaaaaaaa-1111".toList) analyzeIdem idemText
          ("text_input".toList) [] = Except.ok r1 ∧
      extractFromText md5hex ("bbbbbbbb-2222".toList) analyzeIdem idemText
          ("text_input".toList) r1.store = Except.ok r2 ∧
      r1.providerCalled = true ∧ r2.providerCalled = true ∧
      r2.batchId ≠ r1.batchId := by
  have hne : textBatchId md5hex ("bbbbbbbb-2222".toList) idemText ≠
      textBatchId md5hex ("aaaaaaaa-1111".toList) idemText := by
    unfold textBatchId
    intro h
    have h1 := List.append_cancel_left h
    exact absurd h1 (by decide)
  have hresp : analyzeIdem idemText = Except.ok (parseGrokResponse idemContent) := rfl
  have htrim : (trimChars idemText).isEmpty = false := by decide
  have hchk1 : checkBatchExists []
      (textBatchId md5hex ("aaaaaaaa-1111".toList) idemText) = false := rfl
  have hpe : (parseGrokResponse idemContent).people = [janeP] := by decide
  have hcall1 := extractFromText_fresh md5hex ("aaaaaaaa-1111".toList) analyzeIdem idemText
    ("text_input".toList) [] (parseGrokResponse idemContent) htrim hchk1 hresp
  rw [hpe] at hcall1
  simp only [List.isEmpty_cons, if_false, List.map_cons, List.map_nil, Bool.false_eq_true,
    saveHrData, filterDuplicateRecords, findDuplicate, List.find?_nil, Option.isSome_none,
    List.nil_append] at hcall1
  have hbne : ((textBatchId md5hex ("aaaaaaaa-1111".toList) idemText) ==
      (textBatchId md5hex ("bbbbbbbb-2222".toList) idemText)) = false :=
    beq_eq_false_iff_ne.mpr (Ne.symm hne)
  have hchk2 : checkBatchExists
      [toHrData (textBatchId md5hex ("aaaaaaaa-1111".toList) idemText)
        ("text_input".toList) ("general".toList) 0 1
        (parseGrokResponse idemContent).confidence janeP]
      (textBatchId md5hex ("bbbbbbbb-2222".toList) idemText) = false := by
    simp only [checkBatchExists, toHrData, getHrDataByBatch, List.filter, hbne]
    rfl
  have hcall2 := extractFromText_fresh md5hex ("bbbbbbbb-2222".toList) analyzeIdem idemText
    ("text_input".toList)
    [toHrData (textBatchId md5hex ("aaaaaaaa-1111".toList) idemText)
      ("text_input".toList) ("general".toList) 0 1
      (parseGrokResponse idemContent).confidence janeP]
    (parseGrokResponse idemContent) htrim hchk2 hresp
  refine ⟨_, _, hcall1, hcall2, rfl, rfl, ?_⟩
  exact hne

inductive JobStatus where
  | pending
  | processing
  | completed
  | failed
deriving DecidableEq, Repr, Inhabited

/-- BackgroundProcessingService job entry; times are tick indices. -/
structure BackgroundJob where
  id : JStr
  filePath : JStr
  extractionType : JStr
  source : JStr
  description : Option JStr
  status : JobStatus
  totalChunks : Nat
  processedChunks : Nat
  createdAt : Nat
  startedAt : Option Nat
  completedAt : Option Nat
  errorMessage : Option JStr
deriving DecidableEq, Repr, Inhabited

/-- BackgroundProcessingService.createBackgroundJob: totalChunks is the
ceiling of the file length over the 50000-character chunk size, and the job
starts pending with no chunk processed. -/
def createBackgroundJob (id filePath extractionType source : JStr)
    (description : Option JStr) (fileContent : JStr) (now : Nat) : BackgroundJob :=
  { id := id, filePath := filePath, extractionType := extractionType, source := source,
    description := description, status := JobStatus.pending,
    totalChunks := (fileContent.length + 50000 - 1) / 50000,
    processedChunks := 0, createdAt := now, startedAt := none, completedAt := none,
    errorMessage := none }

/-- The filter of processNextJob: jobs that are pending or processing. -/
def jobEligible (j : BackgroundJob) : Bool :=
  j.status == JobStatus.pending || j.status == JobStatus.processing

/-- One tick applied to the selected job: mark it processing and set
startedAt once, then on a successful chunk analysis advance processedChunks
by one and complete the job when the count reaches totalChunks, and on a
thrown analysis error mark the job failed with the message and completion
time, leaving processedChunks untouched. -/
def stepJob (outcome : Except JStr Unit) (now : Nat) (j : BackgroundJob) : BackgroundJob :=
  let j1 := { j with
    status := JobStatus.processing
    startedAt := some (j.startedAt.getD now) }
  match outcome with
  | Except.ok _ =>
    let j2 := { j1 with processedChunks := j1.processedChunks + 1 }
    if j2.totalChunks ≤ j2.processedChunks then
      { j2 with status := JobStatus.completed, completedAt := some now }
    else j2
  | Except.error msg =>
    { j1 with
      status := JobStatus.failed
      errorMessage := some msg
      completedAt := some now }

/-- BackgroundProcessingService.processNextJob: the first pending or
processing job in creation order receives one chunk of work; every other
job is untouched, and the tick is a no-op when no job is eligible.  The
outcome argument is the result of the chunk analysis of this tick. -/
def processNextJob (outcome : Except JStr Unit) (now : Nat) :
    List BackgroundJob → List BackgroundJob
  | [] => []
  | j :: rest =>
    if jobEligible j then stepJob outcome now j :: rest
    else j :: processNextJob outcome now rest

/-- The repeating two-minute timer: one processNextJob call per tick, with
the tick counter as the clock. -/
def runTicks : List (Except JStr Unit) → Nat → List BackgroundJob → List BackgroundJob
  | [], _, jobs => jobs
  | o :: os, now, jobs => runTicks os (now + 1) (processNextJob o now jobs)

/-- An empty source file produces a job with totalChunks zero. -/
def emptyFileJob : BackgroundJob :=
  createBackgroundJob ("j0".toList) ("p".toList) ("general".toList) ("s".toList) none [] 0

/-- A one-chunk job used to exhibit a failing tick. -/
def oneChunkJob : BackgroundJob :=
  createBackgroundJob ("j1".toList) ("p".toList) ("general".toList) ("s".toList) none
    (List.replicate 1 'a') 0

/-- C3 counterexample: a tick that selects a job whose chunk analysis
throws leaves processedChunks unchanged and fails the job, so not every
selecting tick advances the count by one; and one successful tick on the
job of an empty file raises processedChunks to one while totalChunks is
zero, so the count can exceed totalChunks. -/
theorem processNextJob_claim_fails :
    ((processNextJob (Except.error ("analysis failed".toList)) 1 [oneChunkJob]).headI.processedChunks = 0 ∧
      (processNextJob (Except.error ("analysis failed".toList)) 1 [oneChunkJob]).headI.status = JobStatus.failed) ∧
    ((processNextJob (Except.ok ()) 1 [emptyFileJob]).headI.processedChunks = 1 ∧
      (processNextJob (Except.ok ()) 1 [emptyFileJob]).headI.totalChunks = 0) := by
  decide

/-- C3 amended: a tick with no eligible job changes nothing; a tick selects
the first pending or processing job and changes no other job; a successful
chunk analysis advances that job by exactly one chunk while a failing one
leaves the count unchanged and fails the job with completedAt set;
processedChunks never decreases and totalChunks never changes; for an
eligible job with chunks left the count stays within totalChunks and the
job stays within it while it remains eligible; a pending three-chunk job
whose analyses all succeed is completed with completedAt set after exactly
three ticks and is still processing after two; and a 120000-character file
yields exactly three chunks. -/
theorem backgroundJob_tick_behavior :
    (∀ (oc : Except JStr Unit) (now : Nat) (jobs : List BackgroundJob),
      (∀ j ∈ jobs, jobEligible j = false) → processNextJob oc now jobs = jobs) ∧
    (∀ (oc : Except JStr Unit) (now : Nat) (pre : List BackgroundJob)
        (j : BackgroundJob) (post : List BackgroundJob),
      (∀ x ∈ pre, jobEligible x = false) → jobEligible j = true →
        processNextJob oc now (pre ++ j :: post) = pre ++ stepJob oc now j :: post) ∧
    (∀ (now : Nat) (j : BackgroundJob),
      (stepJob (Except.ok ()) now j).processedChunks = j.processedChunks + 1) ∧
    (∀ (e : JStr) (now : Nat) (j : BackgroundJob),
      (stepJob (Except.error e) now j).processedChunks = j.processedChunks ∧
      (stepJob (Except.error e) now j).status = JobStatus.failed ∧
      (stepJob (Except.error e) now j).completedAt = some now) ∧
    (∀ (oc : Except JStr Unit) (now : Nat) (j : BackgroundJob),
      j.processedChunks ≤ (stepJob oc now j).processedChunks ∧
      (stepJob oc now j).totalChunks = j.totalChunks) ∧
    (∀ (oc : Except JStr Unit) (now : Nat) (j : BackgroundJob),
      jobEligible j = true → j.processedChunks < j.totalChunks →
        (stepJob oc now j).processedChunks ≤ j.totalChunks ∧
        (jobEligible (stepJob oc now j) = true →
          (stepJob oc now j).processedChunks < j.totalChunks)) ∧
    (∀ (t0 : Nat) (j : BackgroundJob),
      j.status = JobStatus.pending → j.totalChunks = 3 → j.processedChunks = 0 →
      j.startedAt = none →
        runTicks [Except.ok (), Except.ok (), Except.ok ()] t0 [j] =
          [{ j with
              status := JobStatus.completed
              processedChunks := 3
              startedAt := some t0
              completedAt := some (t0 + 2) }] ∧
        (runTicks [Except.ok (), Except.ok ()] t0 [j]).headI.status =
          JobStatus.processing) ∧
    (∀ (id fp et s : JStr) (d : Option JStr) (now : Nat),
      (createBackgroundJob id fp et s d (List.replicate 120000 'a') now).totalChunks = 3) := by
  refine ⟨?_, ?_, ?_, ?_, ?_, ?_, ?_, ?_⟩
  · intro oc now jobs h
    induction jobs with
    | nil => rfl
    | cons j rest ih =>
      have hj : jobEligible j = false := h j (List.mem_cons_self j rest)
      simp [processNextJob, hj, ih (fun x hx => h x (List.mem_cons_of_mem _ hx))]
  · intro oc now pre j post hpre hj
    induction pre with
    | nil => simp [processNextJob, hj]
    | cons x xs ih =>
      have hx : jobEligible x = false := hpre x (List.mem_cons_self x xs)
      simp [processNextJob, hx, ih (fun y hy => hpre y (List.mem_cons_of_mem _ hy))]
  · intro now j
    simp only [stepJob]
    split <;> rfl
  · intro e now j
    exact ⟨rfl, rfl, rfl⟩
  · intro oc now j
    cases oc with
    | ok u =>
      simp only [stepJob]
      split <;> simp
    | error e => exact ⟨le_refl _, rfl⟩
  · intro oc now j helig hlt
    cases oc with
    | ok u =>
      refine ⟨?_, ?_⟩
      · simp only [stepJob]
        split
        · show j.processedChunks + 1 ≤ j.totalChunks
          omega
        · show j.processedChunks + 1 ≤ j.totalChunks
          omega
      · simp only [stepJob]
        split
        · intro helig2
          simp [jobEligible] at helig2
        · rename_i hcond
          intro _
          have hc2 : ¬(j.totalChunks ≤ j.processedChunks + 1) := hcond
          show j.processedChunks + 1 < j.totalChunks
          omega
    | error e =>
      refine ⟨?_, ?_⟩
      · show j.processedChunks ≤ j.totalChunks
        omega
      · intro helig2
        simp [stepJob, jobEligible] at helig2
  · intro t0 j h1 h2 h3 h4
    constructor
    · simp [runTicks, processNextJob, jobEligible, stepJob, h1, h2, h3, h4]
    · simp [runTicks, processNextJob, jobEligible, stepJob, h1, h2, h3, h4]
  · intro id fp et s d now
    have hlen : (List.replicate 120000 'a').length = 120000 := List.length_replicate _ _
    simp only [createBackgroundJob, hlen]

/-- A concrete pending three-chunk job. -/
def threeChunkJob : BackgroundJob :=
  { id := "j3".toList, filePath := "p".toList, extractionType := "general".toList,
    source := "s".toList, description := none, status := JobStatus.pending,
    totalChunks := 3, processedChunks := 0, createdAt := 0, startedAt := none,
    completedAt := none, errorMessage := none }

/-- C3 witness: the concrete three-chunk job completes after exactly three
successful ticks, with completedAt set, and is still processing after two. -/
theorem backgroundJob_tick_behavior_witness :
    runTicks [Except.ok (), Except.ok (), Except.ok ()] 1 [threeChunkJob] =
      [{ threeChunkJob with
          status := JobStatus.completed
          processedChunks := 3
          startedAt := some 1
          completedAt := some 3 }] ∧
    (runTicks [Except.ok (), Except.ok ()] 1 [threeChunkJob]).headI.status =
      JobStatus.processing :=
  backgroundJob_tick_behavior.2.2.2.2.2.2.1 1 threeChunkJob rfl rfl rfl rfl
